import Mathlib

set_option maxHeartbeats 1000000

/-!
Shallow embedding of the RAG document pipeline of `apps/api/app/services/documents.py`
and `apps/api/app/services/chat.py` (Founder_OS repository), together with proofs of
the behavioural properties stated in the specification.

External effects (the tiktoken tokenizer, the OpenAI embedding and chat providers,
file input and the pgvector distance operator) are third-party components, not code
of this repository; they are modelled as explicit parameters, and each theorem states
the hypotheses on them that it needs.
-/

namespace FounderOS

/-- Abstract tokenizer standing for the fixed `tiktoken` encoding `cl100k_base`
obtained at documents.py line 333.  The tokenizer is a third-party library, so it is
modelled as a pair of functions `encode`/`decode`. -/
structure Tokenizer where
  encode : String → List Nat
  decode : List Nat → String

/-- Character-level instance of `Tokenizer` (one token per character), used to run the
development on concrete inputs. -/
def charTok : Tokenizer where
  encode s := s.data.map Char.toNat
  decode l := String.mk (l.map Char.ofNat)

/-- Python `s[:n]` character slicing. -/
def pyslice (s : String) (n : Nat) : String := String.mk (s.data.take n)

/-- Python `str.strip()` on a character list: drop whitespace from both ends. -/
def pyStripChars (l : List Char) : List Char :=
  ((l.dropWhile Char.isWhitespace).reverse.dropWhile Char.isWhitespace).reverse

/-- Python `str.strip()`. -/
def pystrip (s : String) : String := String.mk (pyStripChars s.data)

/-- Python `text.split("\n\n")`: split at leftmost, non-overlapping occurrences of the
two-newline separator. -/
def splitParas : List Char → List (List Char)
  | [] => [[]]
  | '\n' :: '\n' :: rest => [] :: splitParas rest
  | c :: rest =>
    match splitParas rest with
    | [] => [[c]]
    | p :: ps => (c :: p) :: ps

/-- documents.py line 336: `[p.strip() for p in text.split("\n\n") if p.strip()]`. -/
def splitParagraphs (text : String) : List String :=
  ((splitParas text.data).map (fun l => String.mk (pyStripChars l))).filter (fun p => p ≠ "")

/-- Python `"\n\n".join(texts)`. -/
def joinParas : List String → String
  | [] => ""
  | [s] => s
  | s :: r :: rest => s ++ "\n\n" ++ joinParas (r :: rest)

/-- One chunk produced by `_chunk_text`: the dict
`{"text": ..., "token_count": ..., "metadata": {"chunk_method": ...}}`,
with `method` holding the `chunk_method` value. -/
structure Chunk where
  text : String
  token_count : Nat
  method : String
  deriving DecidableEq, Repr

/-- Loop state of `_chunk_text`: the accumulated `chunks`, the running token buffer
`current_tokens` and the running text buffer `current_texts`. -/
structure ChunkState where
  chunks : List Chunk
  tokens : List Nat
  texts : List String
  deriving DecidableEq, Repr

/-- documents.py lines 354-361: after a paragraph-boundary flush, the seed for the
next buffer — the trailing `overlap` tokens of the flushed buffer (decoded back to
text) when `overlap > 0` and the buffer holds strictly more than `overlap` tokens,
and the empty buffer otherwise. -/
def flushSeed (enc : Tokenizer) (overlap : Nat) (toks : List Nat) : List String × List Nat :=
  if 0 < overlap ∧ overlap < toks.length then
    let tail := toks.drop (toks.length - overlap)
    ([enc.decode tail], tail)
  else ([], [])

/-- documents.py lines 366-378: the `while len(current_tokens) > target_tokens`
force-split loop, fuel-based.  Each iteration emits a `token_split` chunk of the first
`target` tokens and keeps the tokens from position `target - overlap` on (Python
`max(0, target_tokens - overlap_tokens)`; Nat subtraction is already truncated).
Fuel `toks.length` (see `tokenSplitLoop`) suffices whenever `overlap < target`; for
`overlap ≥ target` the Python loop does not terminate, a configuration the spec flags
as a caller error and the repository never uses (it fixes target 512 / overlap 50). -/
def tokenSplitGo (enc : Tokenizer) (target overlap : Nat) : Nat → List Nat → List Chunk × List Nat
  | 0, toks => ([], toks)
  | fuel + 1, toks =>
    if target < toks.length then
      let split := toks.take target
      let c : Chunk := ⟨enc.decode split, split.length, "token_split"⟩
      let r := tokenSplitGo enc target overlap fuel (toks.drop (target - overlap))
      (c :: r.1, r.2)
    else ([], toks)

/-- The force-split loop applied to a token buffer, returning the emitted chunks and
the final buffer. -/
def tokenSplitLoop (enc : Tokenizer) (target overlap : Nat) (toks : List Nat) :
    List Chunk × List Nat :=
  tokenSplitGo enc target overlap toks.length toks

/-- Body of the `for paragraph in paragraphs` loop of `_chunk_text`
(documents.py lines 342-378): flush at a paragraph boundary when adding the paragraph
would push the buffer past `target`, seed the next buffer via `flushSeed`, append the
paragraph, then force-split while the buffer exceeds `target`.  When the force-split
loop ran at least once, `current_texts` ends as the decode of the final buffer. -/
def chunkStep (enc : Tokenizer) (target overlap : Nat) (st : ChunkState)
    (paragraph : String) : ChunkState :=
  let paraTokens := enc.encode paragraph
  let st1 :=
    if st.tokens ≠ [] ∧ target < st.tokens.length + paraTokens.length then
      let flushed : Chunk := ⟨joinParas st.texts, st.tokens.length, "paragraph_boundary"⟩
      let seed := flushSeed enc overlap st.tokens
      ChunkState.mk (st.chunks ++ [flushed]) seed.2 seed.1
    else st
  let tokens2 := st1.tokens ++ paraTokens
  let texts2 := st1.texts ++ [paragraph]
  let r := tokenSplitLoop enc target overlap tokens2
  let texts3 := if r.1 = [] then texts2 else [enc.decode r.2]
  ChunkState.mk (st1.chunks ++ r.1) r.2 texts3

/-- documents.py line 23. -/
def CHUNK_TARGET_TOKENS : Nat := 512

/-- documents.py line 24. -/
def CHUNK_OVERLAP_TOKENS : Nat := 50

/-- `_chunk_text` (documents.py lines 318-389): fold the paragraph loop over the
paragraphs, then flush any non-empty trailing buffer as a `paragraph_boundary`
chunk. -/
def chunk_text (enc : Tokenizer) (target overlap : Nat) (text : String) : List Chunk :=
  let paragraphs := splitParagraphs text
  let st := paragraphs.foldl (chunkStep enc target overlap) (ChunkState.mk [] [] [])
  if st.tokens ≠ [] then
    st.chunks ++ [⟨joinParas st.texts, st.tokens.length, "paragraph_boundary"⟩]
  else st.chunks

/-- document_chunk.py line 14: embedding dimension of `text-embedding-3-small`. -/
def EMBEDDING_DIMENSION : Nat := 1536

/-- Successive slices `l[i : i + n]` for `i = 0, n, 2n, ...`
(documents.py line 411: `for i in range(0, len(texts), batch_size)`), fuel-based.
Fuel `l.length` (see `batches`) suffices whenever `n ≥ 1`; the repository always uses
`n = 100`. -/
def batchesGo (n : Nat) : Nat → List α → List (List α)
  | _, [] => []
  | 0, l => [l]
  | fuel + 1, x :: xs => (x :: xs).take n :: batchesGo n fuel ((x :: xs).drop n)

/-- The batch decomposition of a list into slices of at most `n` elements. -/
def batches (n : Nat) (l : List α) : List (List α) := batchesGo n l.length l

/-- `_generate_embeddings` (documents.py lines 392-420).  Scalars are modelled as `ℚ`
(the claims do not depend on floating-point rounding).  The OpenAI embedding endpoint
is external; one provider request over a batch is the parameter `call`.  With no API
key configured the function returns all-zero vectors; otherwise it issues one call
per 100-element batch and concatenates the per-call results in order. -/
def generate_embeddings (hasKey : Bool) (call : List String → List (List Rat))
    (texts : List String) : List (List Rat) :=
  if !hasKey then texts.map (fun _ => List.replicate EMBEDDING_DIMENSION 0)
  else ((batches 100 texts).map call).flatten

/-- A row of the `documents` table (models/document.py), the fields the pipeline
reads or writes. -/
structure Doc where
  id : Nat
  workspace_id : Nat
  title : String
  status : String
  chunk_count : Option Nat
  error_message : Option String
  deriving DecidableEq, Repr

/-- A row of the `document_chunks` table (models/document_chunk.py);
`chunk_method` is the `metadata["chunk_method"]` value. -/
structure ChunkRow where
  id : Nat
  document_id : Nat
  chunk_index : Nat
  content : String
  token_count : Nat
  embedding : Option (List Rat)
  chunk_method : Option String
  deriving DecidableEq, Repr

/-- The relational store visible to the pipeline: documents and chunks. -/
structure Db where
  documents : List Doc
  chunks : List ChunkRow
  deriving DecidableEq, Repr

/-- `SELECT ... FROM documents WHERE id = docId` with `scalar_one_or_none`. -/
def findDoc (db : Db) (docId : Nat) : Option Doc :=
  db.documents.find? (fun d => d.id == docId)

/-- The chunk rows belonging to a document. -/
def chunksFor (db : Db) (docId : Nat) : List ChunkRow :=
  db.chunks.filter (fun c => c.document_id == docId)

/-- Commit an update of one document row. -/
def updateDoc (db : Db) (docId : Nat) (f : Doc → Doc) : Db :=
  { db with documents := db.documents.map (fun d => if d.id == docId then f d else d) }

/-- documents.py line 223: the message of the `ValueError` raised when extraction
yields only whitespace. -/
def EMPTY_PARSE_MESSAGE : String := "Parsed document is empty — no text extracted"

/-- The `except` branch of `process_document` (documents.py lines 260-277): re-fetch
the document and commit `status = "failed"` with `str(exc)[:500]` as the error
message. -/
def failCommit (db : Db) (docId : Nat) (msg : String) : Db :=
  updateDoc db docId
    (fun d => { d with status := "failed", error_message := some (pyslice msg 500) })

/-- documents.py lines 210-213: commit `status = "processing"`. -/
def procCommit (db : Db) (docId : Nat) : Db :=
  updateDoc db docId (fun d => { d with status := "processing" })

/-- documents.py lines 238-247: the chunk rows built from
`enumerate(zip(chunks, embeddings))`, with fresh ids `freshId + i`. -/
def chunkRows (docId freshId : Nat) (chunks : List Chunk)
    (embeddings : List (List Rat)) : List ChunkRow :=
  (List.zip chunks embeddings).enum.map (fun p =>
    ChunkRow.mk (freshId + p.1) docId p.1 p.2.1.text p.2.1.token_count
      (some p.2.2) (some p.2.1.method))

/-- documents.py lines 249-251: the document-row update of the final commit. -/
def readyDoc (d : Doc) (n : Nat) : Doc :=
  { d with status := "ready", chunk_count := some n }

/-- documents.py lines 238-253: the single commit that inserts the chunk rows and
sets `status = "ready"` and `chunk_count = n` together. -/
def readyCommit (db : Db) (docId : Nat) (rows : List ChunkRow) (n : Nat) : Db :=
  updateDoc { db with chunks := db.chunks ++ rows } docId (fun d => readyDoc d n)

/-- `process_document` (documents.py lines 189-277), as the list of committed store
states, in commit order.  File loading plus `_parse_file` is an external effect whose
outcome is the parameter `parse` (an `Except` whose error is the raised exception's
message — `FileNotFoundError`, decode errors, ...); the embedding stage outcome is
`embed` applied to the chunk texts.  A nonexistent document id commits nothing.
On success the chunk rows (ids `freshId`, `freshId+1`, ...), the `chunk_count` and
the `ready` status are all part of the single final commit. -/
def process_document (db : Db) (docId : Nat) (parse : Except String String)
    (embed : List String → Except String (List (List Rat)))
    (enc : Tokenizer) (freshId : Nat) : List Db :=
  match findDoc db docId with
  | none => []
  | some _ =>
    let db1 := procCommit db docId
    match parse with
    | .error e => [db1, failCommit db1 docId e]
    | .ok raw =>
      if pystrip raw = "" then [db1, failCommit db1 docId EMPTY_PARSE_MESSAGE]
      else
        let chunks := chunk_text enc CHUNK_TARGET_TOKENS CHUNK_OVERLAP_TOKENS raw
        match embed (chunks.map (fun c => c.text)) with
        | .error e => [db1, failCommit db1 docId e]
        | .ok embeddings =>
          [db1, readyCommit db1 docId (chunkRows docId freshId chunks embeddings)
            chunks.length]

/-- A row returned by `_retrieve_relevant_chunks` (chat.py lines 344-353). -/
structure RetrievedChunk where
  chunk_id : Nat
  content : String
  document_id : Nat
  document_title : String
  similarity : Rat
  deriving DecidableEq, Repr

/-- Insertion into a similarity-descending list. -/
def insertDesc (p : RetrievedChunk) : List RetrievedChunk → List RetrievedChunk
  | [] => [p]
  | q :: rest => if q.similarity ≤ p.similarity then p :: q :: rest else q :: insertDesc p rest

/-- `ORDER BY dc.embedding <=> :query_embedding`: ascending cosine distance, i.e.
descending `similarity = 1 - distance`. -/
def sortDesc : List RetrievedChunk → List RetrievedChunk
  | [] => []
  | p :: rest => insertDesc p (sortDesc rest)

/-- chat.py line 26. -/
def TOP_K_CHUNKS : Nat := 5

/-- `_retrieve_relevant_chunks` (chat.py lines 300-353).  The SQL query joins
`document_chunks` to `documents`, keeps rows with the requested workspace, document
status `ready` and a non-null embedding, orders by ascending cosine distance and
takes `top_k`.  The cosine-distance operator `<=>` is computed numerically by
pgvector, outside this repository, so the selected value `1 - distance` is the
oracle parameter `sim`; ordering by ascending distance is ordering by descending
`sim`. -/
def retrieve_relevant_chunks (sim : List Rat → List Rat → Rat) (db : Db)
    (workspaceId : Nat) (queryEmbedding : List Rat) (topK : Nat) :
    List RetrievedChunk :=
  let rows := db.chunks.flatMap (fun c =>
    match c.embedding with
    | none => []
    | some e =>
      (db.documents.filter (fun d =>
        c.document_id == d.id && d.workspace_id == workspaceId &&
          d.status == "ready")).map
        (fun d => RetrievedChunk.mk c.id c.content c.document_id d.title
          (sim e queryEmbedding)))
  ((sortDesc rows).take topK)

/-- A source citation attached to an assistant message (chat.py lines 518-526). -/
structure Source where
  document_id : Nat
  document_title : String
  chunk_id : Nat
  snippet : String
  deriving DecidableEq, Repr

/-- A streamed event payload (chat.py `_sse_data` calls): `content`, `sources`,
`done` (carrying the persisted assistant message id) or `error`. -/
inductive Ev where
  | content (s : String)
  | sources (srcs : List Source)
  | done (messageId : Nat)
  | error (msg : String)
  deriving DecidableEq, Repr

/-- A row of the `messages` table (models/message.py), the fields the engine
writes. -/
structure Msg where
  id : Nat
  conversation_id : Nat
  role : String
  content : String
  sources : Option (List Source)
  deriving DecidableEq, Repr

/-- Outcome of the streaming chat-completion call (an external provider): either the
full token stream arrives, or the stream raises after some tokens were already
forwarded. -/
inductive GenOutcome where
  | ok (tokens : List String)
  | fail (streamed : List String)
  deriving DecidableEq, Repr

/-- chat.py lines 27-31. -/
def NO_CONTEXT_RESPONSE : String :=
  "I don\x27t have any uploaded documents to reference for this question, but I can still help with general Amedici project knowledge. Could you rephrase your question, or upload relevant documentation for more specific answers?"

/-- chat.py line 445. -/
def EMBED_ERROR_MESSAGE : String :=
  "Sorry, I encountered an error processing your question. Please try again."

/-- chat.py line 513. -/
def GEN_ERROR_MESSAGE : String :=
  "Sorry, I encountered an error generating a response. Please try again."

/-- chat.py lines 518-526: one citation per retrieved chunk, snippet truncated to
200 characters. -/
def mkSources (chunks : List RetrievedChunk) : List Source :=
  chunks.map (fun c =>
    Source.mk c.document_id c.document_title c.chunk_id (pyslice c.content 200))

/-- chat.py lines 489-492: the fixed response used when no API key is configured. -/
def fallbackResponse (c : RetrievedChunk) : String :=
  "Based on the documents, here is what I found:\n\nFrom [" ++ c.document_title ++
    "]: " ++ pyslice c.content 200 ++ "..."

/-- `send_message_streaming` (chat.py lines 394-546), returning the emitted event
sequence and the messages committed during the turn (ids `nextId` for the user
message, `nextId + 1` for the assistant message).  The user message is committed
first, before the query is embedded.  The query-embedding outcome is `embedResult`
(the provider is external); the generation stream outcome is `gen`, consulted only
when an API key is configured and retrieval found chunks.  Conversation-title
bookkeeping (lines 432-437) and the prompt assembly (lines 469-482) feed only the
external provider and are not modelled, as no claim mentions them. -/
def send_message_streaming (sim : List Rat → List Rat → Rat) (db : Db)
    (workspaceId conversationId : Nat) (content : String)
    (embedResult : Except String (List Rat)) (hasKey : Bool) (gen : GenOutcome)
    (nextId : Nat) : List Ev × List Msg :=
  let userMsg : Msg := ⟨nextId, conversationId, "user", content, none⟩
  match embedResult with
  | .error _ => ([Ev.error EMBED_ERROR_MESSAGE], [userMsg])
  | .ok qe =>
    match retrieve_relevant_chunks sim db workspaceId qe TOP_K_CHUNKS with
    | [] =>
      let am : Msg := ⟨nextId + 1, conversationId, "assistant", NO_CONTEXT_RESPONSE, none⟩
      ([Ev.content NO_CONTEXT_RESPONSE, Ev.done am.id], [userMsg, am])
    | c0 :: rest =>
      if !hasKey then
        let fb := fallbackResponse c0
        let srcs := mkSources (c0 :: rest)
        let am : Msg := ⟨nextId + 1, conversationId, "assistant", fb, some srcs⟩
        ([Ev.content fb, Ev.sources srcs, Ev.done am.id], [userMsg, am])
      else
        match gen with
        | .fail streamed =>
          (streamed.map Ev.content ++ [Ev.error GEN_ERROR_MESSAGE], [userMsg])
        | .ok toks =>
          let full := String.join toks
          let srcs := mkSources (c0 :: rest)
          let am : Msg := ⟨nextId + 1, conversationId, "assistant", full, some srcs⟩
          (toks.map Ev.content ++ [Ev.sources srcs, Ev.done am.id], [userMsg, am])

/-- A terminal event: `done` or `error`. -/
def isTerminal : Ev → Bool
  | .done _ => true
  | .error _ => true
  | _ => false

/-! Concrete fixtures used by the witness theorems. -/

/-- Similarity oracle for witnesses: constant 0. -/
def wsim : List Rat → List Rat → Rat := fun _ _ => 0

/-- A store with one ready document (workspace 7) owning one embedded chunk. -/
def wdb : Db :=
  Db.mk [Doc.mk 1 7 "t" "ready" none none]
    [ChunkRow.mk 2 1 0 "hello" 1 (some [1]) none]

/-- The retrieval row produced from `wdb`. -/
def wrow : RetrievedChunk := RetrievedChunk.mk 2 "hello" 1 "t" 0

/-- A store with one queued document and no chunks. -/
def wdbQueued : Db := Db.mk [Doc.mk 1 7 "t" "queued" none none] []

/-- Provider embedding function for witnesses. -/
def wf : String → List Rat := fun _ => List.replicate EMBEDDING_DIMENSION 0

/-- Pointwise provider call for witnesses. -/
def wcall : List String → List (List Rat) := fun b => b.map wf

/-- Embedding-stage outcome for witnesses: one singleton vector per text. -/
def wembed : List String → Except String (List (List Rat)) :=
  fun ts => Except.ok (ts.map (fun _ => [0]))

/-! Helper lemmas. -/

/-- Invariance of a predicate under a left fold. -/
theorem foldl_inv {α β : Type} {P : α → Prop} (f : α → β → α) (l : List β) (init : α)
    (h0 : P init) (hstep : ∀ a b, P a → P (f a b)) : P (l.foldl f init) := by
  induction l generalizing init with
  | nil => exact h0
  | cons b bs ih => exact ih (f init b) (hstep init b h0)

/-- Every chunk emitted by the force-split loop is a `token_split` chunk whose text
is the decode of a token list of length equal to its reported count. -/
theorem tokenSplitGo_shape (enc : Tokenizer) (target overlap : Nat) :
    ∀ (fuel : Nat) (toks : List Nat) (c : Chunk),
      c ∈ (tokenSplitGo enc target overlap fuel toks).1 →
      ∃ l : List Nat, c = ⟨enc.decode l, l.length, "token_split"⟩ := by
  intro fuel
  induction fuel with
  | zero =>
    intro toks c hc
    simp [tokenSplitGo] at hc
  | succ fuel ih =>
    intro toks c hc
    by_cases h : target < toks.length
    · simp only [tokenSplitGo, if_pos h, List.mem_cons] at hc
      rcases hc with hc | hc
      · exact ⟨toks.take target, hc⟩
      · exact ih _ _ hc
    · simp [tokenSplitGo, h] at hc

/-- With enough fuel and `overlap < target`, the force-split loop leaves a buffer of
at most `target` tokens. -/
theorem tokenSplitGo_len (enc : Tokenizer) (target overlap : Nat) (hov : overlap < target) :
    ∀ (fuel : Nat) (toks : List Nat), toks.length ≤ fuel →
      (tokenSplitGo enc target overlap fuel toks).2.length ≤ target := by
  intro fuel
  induction fuel with
  | zero =>
    intro toks h
    have hnil : toks = [] := List.eq_nil_of_length_eq_zero (Nat.le_zero.mp h)
    subst hnil
    simp [tokenSplitGo]
  | succ fuel ih =>
    intro toks h
    by_cases hlt : target < toks.length
    · simp only [tokenSplitGo, if_pos hlt]
      apply ih
      have := List.length_drop (target - overlap) toks
      omega
    · simp only [tokenSplitGo, if_neg hlt]
      omega

/-- A buffer of at most `target` tokens passes through the force-split loop
unchanged. -/
theorem tokenSplitLoop_small (enc : Tokenizer) (target overlap : Nat) (toks : List Nat)
    (h : toks.length ≤ target) :
    tokenSplitLoop enc target overlap toks = ([], toks) := by
  cases toks with
  | nil => rfl
  | cons x xs =>
    have hnlt : ¬ target < xs.length + 1 := by
      simp only [List.length_cons] at h
      omega
    simp only [tokenSplitLoop, List.length_cons, tokenSplitGo]
    rw [if_neg hnlt]

/-- The seed buffer left by `flushSeed` holds at most `overlap` tokens. -/
theorem flushSeed_len (enc : Tokenizer) (overlap : Nat) (toks : List Nat) :
    (flushSeed enc overlap toks).2.length ≤ overlap := by
  by_cases h : 0 < overlap ∧ overlap < toks.length
  · obtain ⟨h1, h2⟩ := h
    simp only [flushSeed, if_pos (And.intro h1 h2)]
    simp [List.length_drop]
    omega
  · simp [flushSeed, h]

/-- One paragraph step preserves: paragraph-boundary chunks stay within `target`,
and the running buffer stays within `target`. -/
theorem chunkStep_inv (enc : Tokenizer) (target overlap : Nat) (hov : overlap < target)
    (st : ChunkState) (p : String)
    (h : (∀ c ∈ st.chunks, c.method = "paragraph_boundary" → c.token_count ≤ target) ∧
      st.tokens.length ≤ target) :
    (∀ c ∈ (chunkStep enc target overlap st p).chunks,
        c.method = "paragraph_boundary" → c.token_count ≤ target) ∧
      (chunkStep enc target overlap st p).tokens.length ≤ target := by
  obtain ⟨hc, hlen⟩ := h
  have hst1 :
      (∀ c ∈ (if st.tokens ≠ [] ∧ target < st.tokens.length + (enc.encode p).length then
          ChunkState.mk
            (st.chunks ++ [⟨joinParas st.texts, st.tokens.length, "paragraph_boundary"⟩])
            (flushSeed enc overlap st.tokens).2 (flushSeed enc overlap st.tokens).1
        else st).chunks, c.method = "paragraph_boundary" → c.token_count ≤ target) ∧
        (if st.tokens ≠ [] ∧ target < st.tokens.length + (enc.encode p).length then
          ChunkState.mk
            (st.chunks ++ [⟨joinParas st.texts, st.tokens.length, "paragraph_boundary"⟩])
            (flushSeed enc overlap st.tokens).2 (flushSeed enc overlap st.tokens).1
        else st).tokens.length ≤ target := by
    by_cases hf : st.tokens ≠ [] ∧ target < st.tokens.length + (enc.encode p).length
    · simp only [if_pos hf]
      constructor
      · intro c hcmem hpb
        rcases List.mem_append.mp hcmem with hcm | hcm
        · exact hc c hcm hpb
        · rcases List.mem_singleton.mp hcm with rfl
          exact hlen
      · have := flushSeed_len enc overlap st.tokens
        omega
    · simp only [if_neg hf]
      exact ⟨hc, hlen⟩
  set st1 := (if st.tokens ≠ [] ∧ target < st.tokens.length + (enc.encode p).length then
      ChunkState.mk
        (st.chunks ++ [⟨joinParas st.texts, st.tokens.length, "paragraph_boundary"⟩])
        (flushSeed enc overlap st.tokens).2 (flushSeed enc overlap st.tokens).1
    else st) with hst1def
  obtain ⟨hc1, hlen1⟩ := hst1
  show (∀ c ∈ (ChunkState.mk
      (st1.chunks ++ (tokenSplitLoop enc target overlap (st1.tokens ++ enc.encode p)).1)
      (tokenSplitLoop enc target overlap (st1.tokens ++ enc.encode p)).2
      (if (tokenSplitLoop enc target overlap (st1.tokens ++ enc.encode p)).1 = [] then
        st1.texts ++ [p]
      else [enc.decode (tokenSplitLoop enc target overlap (st1.tokens ++ enc.encode p)).2])).chunks,
        c.method = "paragraph_boundary" → c.token_count ≤ target) ∧
      (ChunkState.mk
        (st1.chunks ++ (tokenSplitLoop enc target overlap (st1.tokens ++ enc.encode p)).1)
        (tokenSplitLoop enc target overlap (st1.tokens ++ enc.encode p)).2
        (if (tokenSplitLoop enc target overlap (st1.tokens ++ enc.encode p)).1 = [] then
          st1.texts ++ [p]
        else
          [enc.decode (tokenSplitLoop enc target overlap (st1.tokens ++ enc.encode p)).2])).tokens.length ≤
        target
  constructor
  · intro c hcmem hpb
    rcases List.mem_append.mp hcmem with hcm | hcm
    · exact hc1 c hcm hpb
    · obtain ⟨l, rfl⟩ := tokenSplitGo_shape enc target overlap _ _ c hcm
      have hpb2 : ("token_split" : String) = "paragraph_boundary" := hpb
      exact absurd hpb2 (by decide)
  · exact tokenSplitGo_len enc target overlap hov _ _ (le_refl _)

/-- C7: for every input containing a paragraph whose token count exceeds the target
(and, as for every run the repository performs, `overlap < target` — the spec flags
`overlap ≥ target` as a configuration error the caller must avoid, and the Python
loop would not terminate there), `_chunk_text` never produces a chunk tagged
`paragraph_boundary` whose reported token count exceeds `target`; the chunks that
split oversized paragraphs are exactly the ones tagged `token_split`
(`tokenSplitGo_shape`). -/
theorem c7_paragraph_chunks_bounded (enc : Tokenizer) (target overlap : Nat)
    (text : String) (hov : overlap < target)
    (_hbig : ∃ p ∈ splitParagraphs text, target < (enc.encode p).length) :
    ∀ c ∈ chunk_text enc target overlap text,
      c.method = "paragraph_boundary" → c.token_count ≤ target := by
  clear _hbig
  have hfold :
      (∀ c ∈ ((splitParagraphs text).foldl (chunkStep enc target overlap)
          (ChunkState.mk [] [] [])).chunks,
        c.method = "paragraph_boundary" → c.token_count ≤ target) ∧
        ((splitParagraphs text).foldl (chunkStep enc target overlap)
          (ChunkState.mk [] [] [])).tokens.length ≤ target := by
    refine foldl_inv
      (P := fun st =>
        (∀ c ∈ st.chunks, c.method = "paragraph_boundary" → c.token_count ≤ target) ∧
          st.tokens.length ≤ target)
      (chunkStep enc target overlap) (splitParagraphs text) (ChunkState.mk [] [] [])
      ⟨fun c hc => absurd hc (List.not_mem_nil c), Nat.zero_le target⟩ ?_
    intro a b hb
    exact chunkStep_inv enc target overlap hov a b hb
  obtain ⟨hchunks, hlen⟩ := hfold
  intro c hcmem hpb
  simp only [chunk_text] at hcmem
  by_cases hne : ((splitParagraphs text).foldl (chunkStep enc target overlap)
      (ChunkState.mk [] [] [])).tokens ≠ []
  · rw [if_pos hne] at hcmem
    rcases List.mem_append.mp hcmem with hcm | hcm
    · exact hchunks c hcm hpb
    · rcases List.mem_singleton.mp hcm with rfl
      exact hlen
  · rw [if_neg hne] at hcmem
    exact hchunks c hcmem hpb

/-- Witness for `c7_paragraph_chunks_bounded` at target 3, overlap 1, on the single
five-token paragraph "abcde". -/
theorem c7_witness :
    (1 < 3 ∧ ∃ p ∈ splitParagraphs "abcde", 3 < (charTok.encode p).length) ∧
      ∀ c ∈ chunk_text charTok 3 1 "abcde",
        c.method = "paragraph_boundary" → c.token_count ≤ 3 :=
  ⟨⟨by decide, by decide⟩,
    c7_paragraph_chunks_bounded charTok 3 1 "abcde" (by decide) (by decide)⟩

/-- One paragraph step preserves the `token_split`-chunk shape invariant. -/
theorem chunkStep_ts_inv (enc : Tokenizer) (target overlap : Nat) (st : ChunkState)
    (p : String)
    (h : ∀ c ∈ st.chunks, c.method = "token_split" →
      ∃ l : List Nat, c.text = enc.decode l ∧ c.token_count = l.length) :
    ∀ c ∈ (chunkStep enc target overlap st p).chunks, c.method = "token_split" →
      ∃ l : List Nat, c.text = enc.decode l ∧ c.token_count = l.length := by
  intro c hcmem hts
  simp only [chunkStep] at hcmem
  rcases List.mem_append.mp hcmem with hcm | hcm
  · by_cases hf : st.tokens ≠ [] ∧ target < st.tokens.length + (enc.encode p).length
    · rw [if_pos hf] at hcm
      rcases List.mem_append.mp hcm with hcm2 | hcm2
      · exact h c hcm2 hts
      · rcases List.mem_singleton.mp hcm2 with rfl
        have hts2 : ("paragraph_boundary" : String) = "token_split" := hts
        exact absurd hts2 (by decide)
    · rw [if_neg hf] at hcm
      exact h c hcm hts
  · obtain ⟨l, rfl⟩ := tokenSplitGo_shape enc target overlap _ _ c hcm
    exact ⟨l, rfl, rfl⟩

/-- C1 amended: for a tokenizer under which re-encoding a decoded token list
preserves its length, every `token_split` chunk reports exactly the tokenizer count
of its text (its text is the decode of precisely its buffered tokens).  The
`paragraph_boundary` chunks instead report the length of the flushed token buffer,
which omits the `"\n\n"` separators inserted when the buffered texts are joined —
`c1_counterexample` shows that this can differ from the tokenizer count of the
chunk's text, refuting the claim as stated. -/
theorem c1_amended (enc : Tokenizer)
    (hlen : ∀ l : List Nat, (enc.encode (enc.decode l)).length = l.length)
    (target overlap : Nat) (text : String) :
    ∀ c ∈ chunk_text enc target overlap text,
      c.method = "token_split" → c.token_count = (enc.encode c.text).length := by
  have hfold : ∀ c ∈ ((splitParagraphs text).foldl (chunkStep enc target overlap)
      (ChunkState.mk [] [] [])).chunks, c.method = "token_split" →
      ∃ l : List Nat, c.text = enc.decode l ∧ c.token_count = l.length := by
    refine foldl_inv
      (P := fun st => ∀ c ∈ st.chunks, c.method = "token_split" →
        ∃ l : List Nat, c.text = enc.decode l ∧ c.token_count = l.length)
      (chunkStep enc target overlap) (splitParagraphs text) (ChunkState.mk [] [] [])
      (fun c hc => absurd hc (List.not_mem_nil c)) ?_
    intro a b hb
    exact chunkStep_ts_inv enc target overlap a b hb
  intro c hcmem hts
  have hshape : ∃ l : List Nat, c.text = enc.decode l ∧ c.token_count = l.length := by
    simp only [chunk_text] at hcmem
    by_cases hne : ((splitParagraphs text).foldl (chunkStep enc target overlap)
        (ChunkState.mk [] [] [])).tokens ≠ []
    · rw [if_pos hne] at hcmem
      rcases List.mem_append.mp hcmem with hcm | hcm
      · exact hfold c hcm hts
      · rcases List.mem_singleton.mp hcm with rfl
        simp at hts
    · rw [if_neg hne] at hcmem
      exact hfold c hcmem hts
  obtain ⟨l, htext, hcount⟩ := hshape
  rw [htext, hlen l, hcount]

/-- Witness for `c1_amended` with the character tokenizer on "abcde"
(target 3, overlap 1), whose first chunk is a `token_split` chunk. -/
theorem c1_witness :
    (∀ l : List Nat, (charTok.encode (charTok.decode l)).length = l.length) ∧
      ∀ c ∈ chunk_text charTok 3 1 "abcde",
        c.method = "token_split" → c.token_count = (charTok.encode c.text).length :=
  ⟨fun l => by simp [charTok], c1_amended charTok (fun l => by simp [charTok]) 3 1 "abcde"⟩

/-- C1 counterexample: on input "a\n\nb" (two one-token paragraphs packed into one
chunk) the single produced chunk has text "a\n\nb" and reported token count 2, while
the tokenizer's count of that text is 4 — the two "\n" separator tokens are not
counted.  (The fixed cl100k_base tokenizer likewise tokenizes the inserted "\n\n"
separator, so the reported count undercounts the joined text there as well.) -/
theorem c1_counterexample :
    chunk_text charTok 512 50 "a\n\nb" = [⟨"a\n\nb", 2, "paragraph_boundary"⟩] ∧
      2 ≠ (charTok.encode "a\n\nb").length := by decide

/-- C8 amended: at a paragraph-boundary flush whose buffer holds strictly more than
`overlap` tokens (`0 < overlap`), and when the seeded buffer plus the incoming
paragraph does not itself overflow `target`, the step emits exactly the flushed
`paragraph_boundary` chunk and the next buffer starts with the trailing `overlap`
tokens of the flushed buffer decoded back to text, followed by the new paragraph.
When the flushed buffer holds at most `overlap` tokens the code instead clears the
buffer (`flushSeed` returns `([], [])`) — `c8_counterexample` shows the claim as
stated fails there. -/
theorem c8_amended (enc : Tokenizer) (target overlap : Nat) (st : ChunkState)
    (p : String)
    (h0 : 0 < overlap)
    (h1 : st.tokens ≠ [])
    (h2 : target < st.tokens.length + (enc.encode p).length)
    (h3 : overlap < st.tokens.length)
    (h4 : overlap + (enc.encode p).length ≤ target) :
    chunkStep enc target overlap st p =
      ChunkState.mk
        (st.chunks ++ [⟨joinParas st.texts, st.tokens.length, "paragraph_boundary"⟩])
        (st.tokens.drop (st.tokens.length - overlap) ++ enc.encode p)
        [enc.decode (st.tokens.drop (st.tokens.length - overlap)), p] := by
  have hseed : flushSeed enc overlap st.tokens =
      ([enc.decode (st.tokens.drop (st.tokens.length - overlap))],
        st.tokens.drop (st.tokens.length - overlap)) := by
    simp only [flushSeed, if_pos (And.intro h0 h3)]
  have htail : (st.tokens.drop (st.tokens.length - overlap)).length = overlap := by
    have := List.length_drop (st.tokens.length - overlap) st.tokens
    omega
  have hsmall : (st.tokens.drop (st.tokens.length - overlap) ++ enc.encode p).length ≤
      target := by
    rw [List.length_append, htail]
    exact h4
  simp only [chunkStep, if_pos (And.intro h1 h2), hseed,
    tokenSplitLoop_small enc target overlap _ hsmall]
  simp

/-- Witness for `c8_amended`: flushing the three-token buffer "abc" with overlap 2
at the arrival of paragraph "d" (target 3) seeds the next buffer with "bc". -/
theorem c8_witness :
    (0 < 2 ∧ (ChunkState.mk [] [97, 98, 99] ["abc"]).tokens ≠ [] ∧
        3 < (ChunkState.mk [] [97, 98, 99] ["abc"]).tokens.length +
          (charTok.encode "d").length ∧
        2 < (ChunkState.mk [] [97, 98, 99] ["abc"]).tokens.length ∧
        2 + (charTok.encode "d").length ≤ 3) ∧
      chunkStep charTok 3 2 (ChunkState.mk [] [97, 98, 99] ["abc"]) "d" =
        ChunkState.mk [⟨"abc", 3, "paragraph_boundary"⟩] [98, 99, 100] ["bc", "d"] := by
  refine ⟨⟨by decide, by decide, by decide, by decide, by decide⟩, ?_⟩
  have h := c8_amended charTok 3 2 (ChunkState.mk [] [97, 98, 99] ["abc"]) "d"
    (by decide) (by decide) (by decide) (by decide) (by decide)
  rw [h]
  decide

/-- C8 counterexample: in the run of `_chunk_text` on "ab\n\ncdef" with target 5 and
overlap 3, the buffer "ab" (2 tokens) is flushed at the arrival of "cdef", yet the
next buffer is NOT seeded with the trailing 3 tokens of the flushed buffer: the code
clears the buffer whenever it holds at most `overlap` tokens, so the second chunk is
"cdef" with no shared overlap. -/
theorem c8_counterexample :
    chunk_text charTok 5 3 "ab\n\ncdef" =
        [⟨"ab", 2, "paragraph_boundary"⟩, ⟨"cdef", 4, "paragraph_boundary"⟩] ∧
      flushSeed charTok 3 (charTok.encode "ab") = ([], []) ∧
      flushSeed charTok 3 (charTok.encode "ab") ≠
        ([charTok.decode ((charTok.encode "ab").drop
            ((charTok.encode "ab").length - 3))],
          (charTok.encode "ab").drop ((charTok.encode "ab").length - 3)) := by
  decide

/-- Every element of `insertDesc q l` is `q` or an element of `l`. -/
theorem mem_insertDesc {p q : RetrievedChunk} {l : List RetrievedChunk}
    (h : p ∈ insertDesc q l) : p = q ∨ p ∈ l := by
  induction l with
  | nil => simpa [insertDesc] using h
  | cons r rest ih =>
    by_cases hle : r.similarity ≤ q.similarity
    · simpa [insertDesc, hle] using h
    · simp only [insertDesc, if_neg hle, List.mem_cons] at h
      rcases h with h | h
      · subst h
        exact Or.inr (List.mem_cons_self p rest)
      · rcases ih h with h2 | h2
        · exact Or.inl h2
        · exact Or.inr (List.mem_cons_of_mem r h2)

/-- Sorting by descending similarity does not add elements. -/
theorem mem_sortDesc {p : RetrievedChunk} {l : List RetrievedChunk}
    (h : p ∈ sortDesc l) : p ∈ l := by
  induction l with
  | nil =>
    simp [sortDesc] at h
  | cons q rest ih =>
    rcases mem_insertDesc (show p ∈ insertDesc q (sortDesc rest) from h) with h2 | h2
    · subst h2
      exact List.mem_cons_self p rest
    · exact List.mem_cons_of_mem q (ih h2)

/-- C2: every row returned by `_retrieve_relevant_chunks` comes from a chunk whose
owning document belongs to the requested workspace, has status "ready", and whose
embedding is non-null — for every store, workspace, query vector, similarity oracle
and `top_k`. -/
theorem c2_retrieval_scope (sim : List Rat → List Rat → Rat) (db : Db) (ws : Nat)
    (qe : List Rat) (topK : Nat) (r : RetrievedChunk)
    (hr : r ∈ retrieve_relevant_chunks sim db ws qe topK) :
    ∃ c ∈ db.chunks, ∃ d ∈ db.documents,
      c.document_id = d.id ∧ d.workspace_id = ws ∧ d.status = "ready" ∧
        c.embedding.isSome ∧ r.chunk_id = c.id ∧ r.document_id = c.document_id ∧
        r.content = c.content := by
  simp only [retrieve_relevant_chunks] at hr
  have hr2 := mem_sortDesc (List.mem_of_mem_take hr)
  rcases List.mem_flatMap.mp hr2 with ⟨c, hcmem, hinner⟩
  cases hemb : c.embedding with
  | none =>
    rw [hemb] at hinner
    exact absurd hinner (List.not_mem_nil r)
  | some e =>
    rw [hemb] at hinner
    rcases List.mem_map.mp hinner with ⟨d, hdfil, rfl⟩
    have hdmem := (List.mem_filter.mp hdfil).1
    have hcond := (List.mem_filter.mp hdfil).2
    simp only [Bool.and_eq_true, beq_iff_eq] at hcond
    obtain ⟨⟨hdoc, hws⟩, hstat⟩ := hcond
    exact ⟨c, hcmem, d, hdmem, hdoc, hws, hstat, by rw [hemb]; rfl, rfl, rfl, rfl⟩

/-- Witness for `c2_retrieval_scope` on the one-document, one-chunk store `wdb`. -/
theorem c2_witness :
    wrow ∈ retrieve_relevant_chunks wsim wdb 7 [] 5 ∧
      ∃ c ∈ wdb.chunks, ∃ d ∈ wdb.documents,
        c.document_id = d.id ∧ d.workspace_id = 7 ∧ d.status = "ready" ∧
          c.embedding.isSome ∧ wrow.chunk_id = c.id ∧
          wrow.document_id = c.document_id ∧ wrow.content = c.content :=
  ⟨by decide, c2_retrieval_scope wsim wdb 7 [] 5 wrow (by decide)⟩

/-- `content` events contribute nothing to the terminal-event count. -/
theorem countP_terminal_append (cs : List String) (tail : List Ev) :
    List.countP isTerminal (cs.map Ev.content ++ tail) = List.countP isTerminal tail := by
  induction cs with
  | nil => rfl
  | cons s rest ih =>
    simp only [List.map_cons, List.cons_append, List.countP_cons, isTerminal]
    simp [ih]

/-- C5: every event sequence emitted by `send_message_streaming` contains exactly one
terminal event (`done` or `error`), and has the shape "zero or more `content` events,
then an optional `sources` event immediately followed by `done`, or a bare terminal"
— so all `content` events precede the (at most one) `sources` event, which precedes
`done`. -/
theorem c5_event_contract (sim : List Rat → List Rat → Rat) (db : Db)
    (ws cid : Nat) (content : String) (embedResult : Except String (List Rat))
    (hasKey : Bool) (gen : GenOutcome) (nextId : Nat) :
    List.countP isTerminal
        (send_message_streaming sim db ws cid content embedResult hasKey gen nextId).1 = 1 ∧
      ∃ cs : List String, ∃ tail : List Ev,
        (send_message_streaming sim db ws cid content embedResult hasKey gen nextId).1 =
            cs.map Ev.content ++ tail ∧
          ((∃ e, tail = [Ev.error e]) ∨ (∃ m, tail = [Ev.done m]) ∨
            (∃ ss m, tail = [Ev.sources ss, Ev.done m])) := by
  cases embedResult with
  | error e =>
    exact ⟨rfl, [], [Ev.error EMBED_ERROR_MESSAGE], rfl, Or.inl ⟨_, rfl⟩⟩
  | ok qe =>
    cases hch : retrieve_relevant_chunks sim db ws qe TOP_K_CHUNKS with
    | nil =>
      simp only [send_message_streaming, hch]
      exact ⟨rfl, [NO_CONTEXT_RESPONSE], [Ev.done (nextId + 1)], rfl,
        Or.inr (Or.inl ⟨_, rfl⟩)⟩
    | cons c0 rest =>
      cases hasKey with
      | false =>
        simp only [send_message_streaming, hch]
        exact ⟨rfl, [fallbackResponse c0],
          [Ev.sources (mkSources (c0 :: rest)), Ev.done (nextId + 1)], rfl,
          Or.inr (Or.inr ⟨_, _, rfl⟩)⟩
      | true =>
        cases gen with
        | fail streamed =>
          simp only [send_message_streaming, hch]
          refine ⟨?_, streamed, [Ev.error GEN_ERROR_MESSAGE], rfl, Or.inl ⟨_, rfl⟩⟩
          show List.countP isTerminal
            (streamed.map Ev.content ++ [Ev.error GEN_ERROR_MESSAGE]) = 1
          rw [countP_terminal_append]
          rfl
        | ok toks =>
          simp only [send_message_streaming, hch]
          refine ⟨?_, toks,
            [Ev.sources (mkSources (c0 :: rest)), Ev.done (nextId + 1)], rfl,
            Or.inr (Or.inr ⟨_, _, rfl⟩)⟩
          show List.countP isTerminal (toks.map Ev.content ++
            [Ev.sources (mkSources (c0 :: rest)), Ev.done (nextId + 1)]) = 1
          rw [countP_terminal_append]
          rfl

/-- C9: when the generation stream fails after forwarding some tokens, the turn
emits those `content` events followed by a single `error` event, and the only
message committed during the turn is the user's (persisted before the query was
embedded) — no partial assistant message is stored. -/
theorem c9_generation_failure (sim : List Rat → List Rat → Rat) (db : Db)
    (ws cid : Nat) (content : String) (qe : List Rat) (streamed : List String)
    (nextId : Nat)
    (hch : retrieve_relevant_chunks sim db ws qe TOP_K_CHUNKS ≠ []) :
    send_message_streaming sim db ws cid content (Except.ok qe) true
        (GenOutcome.fail streamed) nextId =
      (streamed.map Ev.content ++ [Ev.error GEN_ERROR_MESSAGE],
        [Msg.mk nextId cid "user" content none]) := by
  rcases List.exists_cons_of_ne_nil hch with ⟨c0, rest, hch2⟩
  simp only [send_message_streaming, hch2]
  rfl

/-- Witness for `c9_generation_failure` on the store `wdb`, with one token streamed
before the provider failure. -/
theorem c9_witness :
    retrieve_relevant_chunks wsim wdb 7 [] TOP_K_CHUNKS ≠ [] ∧
      send_message_streaming wsim wdb 7 3 "q" (Except.ok []) true
          (GenOutcome.fail ["x"]) 20 =
        (["x"].map Ev.content ++ [Ev.error GEN_ERROR_MESSAGE],
          [Msg.mk 20 3 "user" "q" none]) :=
  ⟨by decide, c9_generation_failure wsim wdb 7 3 "q" [] ["x"] 20 (by decide)⟩

/-- C10: when retrieval finds no chunks, the turn emits exactly a `content` event
carrying the fixed no-context text followed by a `done` event carrying the persisted
assistant message id, and commits exactly one assistant message, with null sources
(besides the user's message) — no error and no sources event. -/
theorem c10_no_context (sim : List Rat → List Rat → Rat) (db : Db) (ws cid : Nat)
    (content : String) (qe : List Rat) (hasKey : Bool) (gen : GenOutcome)
    (nextId : Nat)
    (hch : retrieve_relevant_chunks sim db ws qe TOP_K_CHUNKS = []) :
    send_message_streaming sim db ws cid content (Except.ok qe) hasKey gen nextId =
      ([Ev.content NO_CONTEXT_RESPONSE, Ev.done (nextId + 1)],
        [Msg.mk nextId cid "user" content none,
          Msg.mk (nextId + 1) cid "assistant" NO_CONTEXT_RESPONSE none]) := by
  simp only [send_message_streaming, hch]

/-- Witness for `c10_no_context` on an empty store. -/
theorem c10_witness :
    retrieve_relevant_chunks wsim (Db.mk [] []) 7 [] TOP_K_CHUNKS = [] ∧
      send_message_streaming wsim (Db.mk [] []) 7 3 "q" (Except.ok []) true
          (GenOutcome.ok ["x"]) 20 =
        ([Ev.content NO_CONTEXT_RESPONSE, Ev.done 21],
          [Msg.mk 20 3 "user" "q" none,
            Msg.mk 21 3 "assistant" NO_CONTEXT_RESPONSE none]) :=
  ⟨by decide, c10_no_context wsim (Db.mk [] []) 7 3 "q" [] true (GenOutcome.ok ["x"]) 20
    (by decide)⟩

/-- `pyslice` truncates to at most `n` characters. -/
theorem pyslice_length (s : String) (n : Nat) : (pyslice s n).length ≤ n := by
  show (s.data.take n).length ≤ n
  rw [List.length_take]
  exact min_le_left n s.data.length

/-- Finding a document after an id-preserving row update finds the updated row. -/
theorem find_update (docId : Nat) (f : Doc → Doc) (hid : ∀ d, (f d).id = d.id) :
    ∀ l : List Doc,
      (l.map (fun d => if d.id == docId then f d else d)).find? (fun d => d.id == docId) =
        (l.find? (fun d => d.id == docId)).map f := by
  intro l
  induction l with
  | nil => rfl
  | cons d rest ih =>
    simp only [List.map_cons]
    by_cases hd : (d.id == docId) = true
    · have hfd : ((f d).id == docId) = true := by rw [hid d]; exact hd
      simp [List.find?, hd, hfd]
    · have hfd : ¬ ((f d).id == docId) = true := by rw [hid d]; exact hd
      simp only [List.find?, hd, hfd, Bool.false_eq_true, if_false, ih]

/-- `findDoc` after `updateDoc` with an id-preserving update. -/
theorem findDoc_updateDoc (db : Db) (docId : Nat) (f : Doc → Doc)
    (hid : ∀ d, (f d).id = d.id) :
    findDoc (updateDoc db docId f) docId = (findDoc db docId).map f :=
  find_update docId f hid db.documents

/-- `findDoc` after the "processing" commit. -/
theorem findDoc_procCommit (db : Db) (docId : Nat) :
    findDoc (procCommit db docId) docId =
      (findDoc db docId).map (fun d => { d with status := "processing" }) :=
  findDoc_updateDoc db docId (fun d => { d with status := "processing" })
    (fun _ => rfl)

/-- `findDoc` after the "failed" commit. -/
theorem findDoc_failCommit (db : Db) (docId : Nat) (msg : String) :
    findDoc (failCommit db docId msg) docId =
      (findDoc db docId).map
        (fun d => { d with status := "failed", error_message := some (pyslice msg 500) }) :=
  findDoc_updateDoc db docId
    (fun d => { d with status := "failed", error_message := some (pyslice msg 500) })
    (fun _ => rfl)

/-- `findDoc` after the "ready" commit. -/
theorem findDoc_readyCommit (db : Db) (docId : Nat) (rows : List ChunkRow) (n : Nat) :
    findDoc (readyCommit db docId rows n) docId =
      (findDoc db docId).map (fun d => readyDoc d n) :=
  findDoc_updateDoc { db with chunks := db.chunks ++ rows } docId
    (fun d => readyDoc d n) (fun _ => rfl)

/-- C3: when any pipeline stage fails — extraction raising with message `e`,
extraction yielding only whitespace (message `EMPTY_PARSE_MESSAGE`), or the embedding
stage raising with message `e` — a document that had no chunks ends, in the last
committed state, with status "failed", `error_message` equal to the exception message
truncated to at most 500 characters, still no chunks, and `chunk_count` still null. -/
theorem c3_failure_path (db : Db) (docId freshId : Nat) (doc : Doc) (e : String)
    (parse : Except String String)
    (embed : List String → Except String (List (List Rat))) (enc : Tokenizer)
    (hdoc : findDoc db docId = some doc)
    (hno : chunksFor db docId = [])
    (hcc : doc.chunk_count = none)
    (hfail : parse = Except.error e
      ∨ (∃ raw, parse = Except.ok raw ∧ pystrip raw = "" ∧ e = EMPTY_PARSE_MESSAGE)
      ∨ (∃ raw, parse = Except.ok raw ∧ ¬ pystrip raw = "" ∧
          embed ((chunk_text enc CHUNK_TARGET_TOKENS CHUNK_OVERLAP_TOKENS raw).map
            (fun c => c.text)) = Except.error e)) :
    ∃ dbF, (process_document db docId parse embed enc freshId).getLast? = some dbF ∧
      ∃ d, findDoc dbF docId = some d ∧ d.status = "failed" ∧
        d.error_message = some (pyslice e 500) ∧ (pyslice e 500).length ≤ 500 ∧
        d.chunk_count = none ∧ chunksFor dbF docId = [] := by
  have hmain : ∃ d,
      findDoc (failCommit (procCommit db docId) docId e) docId = some d ∧
      d.status = "failed" ∧ d.error_message = some (pyslice e 500) ∧
      (pyslice e 500).length ≤ 500 ∧ d.chunk_count = none ∧
      chunksFor (failCommit (procCommit db docId) docId e) docId = [] := by
    refine ⟨{ doc with status := "failed", error_message := some (pyslice e 500) },
      ?_, rfl, rfl, pyslice_length e 500, hcc, hno⟩
    rw [findDoc_failCommit, findDoc_procCommit, hdoc]
    rfl
  rcases hfail with hp | ⟨raw, hp, hraw, he⟩ | ⟨raw, hp, hraw, hemb⟩
  · subst hp
    refine ⟨_, ?_, hmain⟩
    simp only [process_document, hdoc]
    rfl
  · subst hp
    subst he
    refine ⟨_, ?_, hmain⟩
    simp only [process_document, hdoc, if_pos hraw]
    rfl
  · subst hp
    refine ⟨_, ?_, hmain⟩
    simp only [process_document, hdoc, if_neg hraw, hemb]
    rfl

/-- Witness for `c3_failure_path`: extraction fails with "boom" on the queued
document of `wdbQueued`. -/
theorem c3_witness :
    (findDoc wdbQueued 1 = some (Doc.mk 1 7 "t" "queued" none none) ∧
        chunksFor wdbQueued 1 = [] ∧
        (Doc.mk 1 7 "t" "queued" none none).chunk_count = none) ∧
      ∃ dbF, (process_document wdbQueued 1 (Except.error "boom")
          (fun _ => Except.ok []) charTok 10).getLast? = some dbF ∧
        ∃ d, findDoc dbF 1 = some d ∧ d.status = "failed" ∧
          d.error_message = some (pyslice "boom" 500) ∧
          (pyslice "boom" 500).length ≤ 500 ∧
          d.chunk_count = none ∧ chunksFor dbF 1 = [] :=
  ⟨⟨by decide, by decide, rfl⟩,
    c3_failure_path wdbQueued 1 10 (Doc.mk 1 7 "t" "queued" none none) "boom"
      (Except.error "boom") (fun _ => Except.ok []) charTok (by decide) (by decide) rfl
      (Or.inl rfl)⟩

/-- C4: on the success path the pipeline commits exactly twice: first the
"processing" state (no chunks for the document, `chunk_count` still null), then one
final state in which the chunk rows, `chunk_count` and the "ready" status appear
together, with `chunk_count` equal to the number of chunk rows persisted for the
document.  Chunks are never visible without the ready status, nor ready status
without its chunks, and `chunk_count` is written exactly once, at that
processing-to-ready transition. -/
theorem c4_ready_atomicity (db : Db) (docId freshId : Nat) (doc : Doc) (raw : String)
    (embs : List (List Rat))
    (embed : List String → Except String (List (List Rat))) (enc : Tokenizer)
    (hdoc : findDoc db docId = some doc)
    (hno : chunksFor db docId = [])
    (hcc : doc.chunk_count = none)
    (hraw : ¬ pystrip raw = "")
    (hembed : embed ((chunk_text enc CHUNK_TARGET_TOKENS CHUNK_OVERLAP_TOKENS raw).map
      (fun c => c.text)) = Except.ok embs)
    (hlen : embs.length = (chunk_text enc CHUNK_TARGET_TOKENS CHUNK_OVERLAP_TOKENS raw).length) :
    ∃ db1 db2,
      process_document db docId (Except.ok raw) embed enc freshId = [db1, db2] ∧
      (∃ d1, findDoc db1 docId = some d1 ∧ d1.status = "processing" ∧
        d1.chunk_count = none) ∧
      chunksFor db1 docId = [] ∧
      (∃ d2, findDoc db2 docId = some d2 ∧ d2.status = "ready" ∧
        d2.chunk_count =
          some (chunk_text enc CHUNK_TARGET_TOKENS CHUNK_OVERLAP_TOKENS raw).length) ∧
      (chunksFor db2 docId).length =
        (chunk_text enc CHUNK_TARGET_TOKENS CHUNK_OVERLAP_TOKENS raw).length := by
  refine ⟨procCommit db docId,
    readyCommit (procCommit db docId) docId
      (chunkRows docId freshId (chunk_text enc CHUNK_TARGET_TOKENS CHUNK_OVERLAP_TOKENS raw) embs)
      (chunk_text enc CHUNK_TARGET_TOKENS CHUNK_OVERLAP_TOKENS raw).length,
    ?_, ⟨{ doc with status := "processing" }, ?_, rfl, hcc⟩, hno, ?_, ?_⟩
  · simp only [process_document, hdoc, if_neg hraw, hembed]
  · rw [findDoc_procCommit, hdoc]
    rfl
  · refine ⟨readyDoc { doc with status := "processing" }
      (chunk_text enc CHUNK_TARGET_TOKENS CHUNK_OVERLAP_TOKENS raw).length, ?_, rfl, rfl⟩
    rw [findDoc_readyCommit, findDoc_procCommit, hdoc]
    rfl
  · show (List.filter (fun c => c.document_id == docId)
      ((procCommit db docId).chunks ++
        chunkRows docId freshId (chunk_text enc CHUNK_TARGET_TOKENS CHUNK_OVERLAP_TOKENS raw)
          embs)).length =
      (chunk_text enc CHUNK_TARGET_TOKENS CHUNK_OVERLAP_TOKENS raw).length
    rw [List.filter_append]
    have h1 : List.filter (fun c => c.document_id == docId) (procCommit db docId).chunks = [] :=
      hno
    have h2 : List.filter (fun c => c.document_id == docId)
        (chunkRows docId freshId (chunk_text enc CHUNK_TARGET_TOKENS CHUNK_OVERLAP_TOKENS raw) embs) =
        chunkRows docId freshId (chunk_text enc CHUNK_TARGET_TOKENS CHUNK_OVERLAP_TOKENS raw) embs := by
      rw [List.filter_eq_self]
      intro a ha
      rcases List.mem_map.mp ha with ⟨p, hp, rfl⟩
      exact beq_self_eq_true docId
    rw [h1, h2, List.nil_append]
    show (List.map _ (List.zip (chunk_text enc CHUNK_TARGET_TOKENS CHUNK_OVERLAP_TOKENS raw)
      embs).enum).length = _
    rw [List.length_map, List.enum_length, List.length_zip, hlen, Nat.min_self]

/-- Witness for `c4_ready_atomicity`: the queued document of `wdbQueued` processed
from raw text "hello" with a one-vector embedding result. -/
theorem c4_witness :
    (findDoc wdbQueued 1 = some (Doc.mk 1 7 "t" "queued" none none) ∧
        chunksFor wdbQueued 1 = [] ∧ ¬ pystrip "hello" = "" ∧
        wembed ((chunk_text charTok CHUNK_TARGET_TOKENS CHUNK_OVERLAP_TOKENS "hello").map
            (fun c => c.text)) =
          Except.ok [[0]] ∧
        ([[0]] : List (List Rat)).length =
          (chunk_text charTok CHUNK_TARGET_TOKENS CHUNK_OVERLAP_TOKENS "hello").length) ∧
      ∃ db1 db2,
        process_document wdbQueued 1 (Except.ok "hello") wembed charTok 10 = [db1, db2] ∧
        (∃ d1, findDoc db1 1 = some d1 ∧ d1.status = "processing" ∧
          d1.chunk_count = none) ∧
        chunksFor db1 1 = [] ∧
        (∃ d2, findDoc db2 1 = some d2 ∧ d2.status = "ready" ∧
          d2.chunk_count =
            some (chunk_text charTok CHUNK_TARGET_TOKENS CHUNK_OVERLAP_TOKENS "hello").length) ∧
        (chunksFor db2 1).length =
          (chunk_text charTok CHUNK_TARGET_TOKENS CHUNK_OVERLAP_TOKENS "hello").length :=
  ⟨⟨by decide, by decide, by decide, rfl, by decide⟩,
    c4_ready_atomicity wdbQueued 1 10 (Doc.mk 1 7 "t" "queued" none none) "hello" [[0]]
      wembed charTok (by decide) (by decide) rfl (by decide) rfl (by decide)⟩

/-- With positive batch size and enough fuel, flattening the batches restores the
input list. -/
theorem batchesGo_flatten {α : Type} (n : Nat) (hn : 0 < n) :
    ∀ (fuel : Nat) (l : List α), l.length ≤ fuel → (batchesGo n fuel l).flatten = l := by
  intro fuel
  induction fuel with
  | zero =>
    intro l h
    have hnil : l = [] := List.eq_nil_of_length_eq_zero (Nat.le_zero.mp h)
    subst hnil
    rfl
  | succ fuel ih =>
    intro l h
    cases l with
    | nil => rfl
    | cons x xs =>
      simp only [batchesGo, List.flatten_cons]
      rw [ih]
      · exact List.take_append_drop n (x :: xs)
      · rw [List.length_drop]
        simp only [List.length_cons] at h ⊢
        omega

/-- With positive batch size and enough fuel, every batch holds at most `n`
elements. -/
theorem batchesGo_size {α : Type} (n : Nat) (hn : 0 < n) :
    ∀ (fuel : Nat) (l : List α), l.length ≤ fuel →
      ∀ b ∈ batchesGo n fuel l, b.length ≤ n := by
  intro fuel
  induction fuel with
  | zero =>
    intro l h b hb
    have hnil : l = [] := List.eq_nil_of_length_eq_zero (Nat.le_zero.mp h)
    subst hnil
    exact absurd hb (List.not_mem_nil b)
  | succ fuel ih =>
    intro l h b hb
    cases l with
    | nil => exact absurd hb (List.not_mem_nil b)
    | cons x xs =>
      simp only [batchesGo, List.mem_cons] at hb
      rcases hb with hb | hb
      · subst hb
        rw [List.length_take]
        exact min_le_left ..
      · refine ih ((x :: xs).drop n) ?_ b hb
        rw [List.length_drop]
        simp only [List.length_cons] at h ⊢
        omega

/-- C6: with a provider that embeds each text of a request independently (`call b =
b.map f`) into vectors of the fixed dimensionality, `_generate_embeddings` returns
exactly one vector per input text, positionally aligned (`texts.map f`), each of
dimension `EMBEDDING_DIMENSION = 1536`, with every issued provider call carrying at
most 100 texts; with no credential configured it deterministically returns one
all-zero vector of that dimensionality per input text. -/
theorem c6_embedding_batch (call : List String → List (List Rat))
    (f : String → List Rat) (texts : List String)
    (hcall : ∀ b, call b = b.map f)
    (hdim : ∀ s, (f s).length = EMBEDDING_DIMENSION) :
    generate_embeddings true call texts = texts.map f ∧
      (generate_embeddings true call texts).length = texts.length ∧
      (∀ v ∈ generate_embeddings true call texts, v.length = EMBEDDING_DIMENSION) ∧
      (∀ b ∈ batches 100 texts, b.length ≤ 100) ∧
      generate_embeddings false call texts =
        texts.map (fun _ => List.replicate EMBEDDING_DIMENSION 0) ∧
      (generate_embeddings false call texts).length = texts.length ∧
      (∀ v ∈ generate_embeddings false call texts, v.length = EMBEDDING_DIMENSION) := by
  have hc : call = fun b => b.map f := funext hcall
  have hb : (batches 100 texts).flatten = texts :=
    batchesGo_flatten 100 (by omega) texts.length texts (le_refl _)
  have hkey : generate_embeddings true call texts = texts.map f := by
    show ((batches 100 texts).map call).flatten = texts.map f
    rw [hc]
    rw [show ((batches 100 texts).map (fun b => b.map f)).flatten =
        ((batches 100 texts).flatten).map f from (List.map_flatten ..).symm]
    rw [hb]
  have hzero : generate_embeddings false call texts =
      texts.map (fun _ => List.replicate EMBEDDING_DIMENSION 0) := rfl
  refine ⟨hkey, ?_, ?_, ?_, hzero, ?_, ?_⟩
  · rw [hkey, List.length_map]
  · intro v hv
    rw [hkey] at hv
    rcases List.mem_map.mp hv with ⟨s, _, rfl⟩
    exact hdim s
  · exact batchesGo_size 100 (by omega) texts.length texts (le_refl _)
  · rw [hzero, List.length_map]
  · intro v hv
    rw [hzero] at hv
    rcases List.mem_map.mp hv with ⟨s, _, rfl⟩
    exact List.length_replicate ..

/-- Witness for `c6_embedding_batch` with the pointwise provider `wcall` on two
texts. -/
theorem c6_witness :
    ((∀ b, wcall b = b.map wf) ∧ ∀ s, (wf s).length = EMBEDDING_DIMENSION) ∧
      generate_embeddings true wcall ["a", "b"] = ["a", "b"].map wf ∧
      (generate_embeddings true wcall ["a", "b"]).length = (["a", "b"] : List String).length ∧
      (∀ v ∈ generate_embeddings true wcall ["a", "b"], v.length = EMBEDDING_DIMENSION) ∧
      (∀ b ∈ batches 100 ["a", "b"], b.length ≤ 100) ∧
      generate_embeddings false wcall ["a", "b"] =
        (["a", "b"] : List String).map (fun _ => List.replicate EMBEDDING_DIMENSION 0) ∧
      (generate_embeddings false wcall ["a", "b"]).length = (["a", "b"] : List String).length ∧
      (∀ v ∈ generate_embeddings false wcall ["a", "b"], v.length = EMBEDDING_DIMENSION) :=
  ⟨⟨fun _ => rfl, fun _ => List.length_replicate ..⟩,
    c6_embedding_batch wcall wf ["a", "b"] (fun _ => rfl)
      (fun _ => List.length_replicate ..)⟩

end FounderOS
